import Mathlib

/-!
Verification development for the cargo-hack core (src/main.rs, src/manifest.rs,
src/cli.rs).  The Rust functions are shallowly embedded as executable Lean
definitions; external collaborators whose sources are not part of the
repository snapshot (context.rs, features.rs, metadata.rs, process.rs,
restore.rs, and the toml_edit crate) are modelled as explicit data or, where a
behaviour is needed, from the specification's words (marked in doc comments).
-/

set_option autoImplicit false

universe u

/-! ### Feature power-set enumerator (src/main.rs, `powerset`) -/

/-- One fold step of `powerset` in src/main.rs: clone the accumulated list,
push the element onto every clone, keep clones within the depth bound, and
append them after the originals. -/
def powersetStep {α : Type u} (depth : Option Nat) (acc : List (List α)) (elem : α) :
    List (List α) :=
  let ext := acc.map (fun curr => curr ++ [elem])
  match depth with
  | some d => acc ++ ext.filter (fun f => f.length ≤ d)
  | none => acc ++ ext

/-- `powerset` from src/main.rs: fold over the input starting from `[[]]`. -/
def powerset {α : Type u} (l : List α) (depth : Option Nat) : List (List α) :=
  l.foldl (powersetStep depth) [[]]

/-! ### Manifest document model (src/manifest.rs and the toml_edit view)

`toml_edit::Document` is an external crate.  We model a parsed manifest at the
granularity the edit operates on: the document is the ordered list of its
table sections.  Each section keeps the full key path of its header (e.g.
`[target.'cfg(unix)'.dev-dependencies]` has path
`["target", "cfg(unix)", "dev-dependencies"]`), the exact header text, the
decor (blank lines / comments preceding the header), and the body text
following the header line.  Rendering concatenates the sections' bytes in
order, which is exactly what the format-preserving `Document::to_string`
produces for table-structured documents. -/

structure TomlSection where
  path : List String
  header : String
  decor : String
  body : String
deriving DecidableEq, Repr

/-- A parsed manifest document: its table sections in source order. -/
abbrev TomlDocument := List TomlSection

/-- Format-preserving rendering: concatenate each section's decor, header and
body in document order. -/
def TomlDocument.render (doc : TomlDocument) : String :=
  doc.foldl (fun acc s => acc ++ s.decor ++ s.header ++ s.body) ""

/-- `remove_dev_deps` from src/manifest.rs: `table.remove("dev-dependencies")`
on the document root (dropping that table and all of its sub-tables), then for
every table-like entry of the `target` table, remove its `dev-dependencies`
sub-table (again with all of its sub-tables). -/
def removeDevDeps (doc : TomlDocument) : TomlDocument :=
  let key := "dev-dependencies"
  let doc1 := List.filter (fun s => !(s.path.head? == some key)) doc
  List.filter (fun s =>
    match s.path with
    | "target" :: _ :: k :: _ => !(k == key)
    | _ => true) doc1

/-- The sections the spec's edit algorithm keeps: everything except the
top-level developer-dependency table (with its sub-tables) and, for entries
under the platform/target conditional section, their developer-dependency
sub-tables. -/
def specKeepsSection (s : TomlSection) : Bool :=
  (match s.path with
   | "target" :: _ :: k :: _ => !(k == "dev-dependencies")
   | _ => true)
  && !(s.path.head? == some "dev-dependencies")

/-- Does `needle` occur as a contiguous run of characters of `hay`, starting
at any position? -/
def occursAux (needle : List Char) : List Char → Bool
  | [] => needle.isEmpty
  | c :: rest => needle.isPrefixOf (c :: rest) || occursAux needle rest

/-- Does `needle` occur as a substring of `hay`?  (Used to talk about
occurrences of the string "dev-dependencies" inside section bodies.) -/
def occursIn (needle hay : String) : Bool := occursAux needle.data hay.data

/-- `Manifest` from src/manifest.rs: the raw bytes read from disk and the
parsed document.  `Manifest::new` stores the file's bytes in `raw` unchanged
and parses the same bytes into `doc`. -/
structure Manifest where
  raw : String
  doc : TomlDocument

/-- `Manifest::remove_dev_deps` from src/manifest.rs: clone the parsed
document, edit the clone, and render it; the stored `raw` and `doc` are not
touched (the function takes `&self`). -/
def Manifest.remove_dev_deps (m : Manifest) : String :=
  TomlDocument.render (removeDevDeps m.doc)

/-- The file contents written by `exec_on_package` (src/main.rs) for one
guarded run with dev-dependency removal: first the edited document, then, on
scope exit, the backup.

Modelled from the spec: restore.rs is not in the source snapshot; per the
spec's Manifest Mutation Guard contract, `restore.set_manifest` stores the
manifest's full original byte content (`Manifest.raw`) and `handle.close()`
writes exactly those stored bytes back. -/
structure GuardRun where
  edited : String
  restored : String
deriving DecidableEq

/-- The edit/restore pipeline of `exec_on_package` for one package. -/
def manifestGuardRun (m : Manifest) : GuardRun :=
  let new := m.remove_dev_deps
  let backup := m.raw
  { edited := new, restored := backup }

/-! Concrete documents used by the repository's own test cases.  Each is the
section list toml_edit produces for the shown input; the render conjuncts in
the theorems check that the section list reproduces the input bytes exactly. -/

/-- Sections of `"[package]\n[dependencies]\n[[example]]\n[dev-dependencies.opencl]\n[dev-dependencies]"`. -/
def exampleDocA : TomlDocument :=
  [ { path := ["package"], header := "[package]", decor := "", body := "\n" },
    { path := ["dependencies"], header := "[dependencies]", decor := "", body := "\n" },
    { path := ["example"], header := "[[example]]", decor := "", body := "\n" },
    { path := ["dev-dependencies", "opencl"], header := "[dev-dependencies.opencl]",
      decor := "", body := "\n" },
    { path := ["dev-dependencies"], header := "[dev-dependencies]", decor := "", body := "" } ]

/-- The raw input bytes of the first manifest test in src/manifest.rs. -/
def exampleRawA : String :=
  "[package]\n[dependencies]\n[[example]]\n[dev-dependencies.opencl]\n[dev-dependencies]"

/-- The manifest holding `exampleRawA` and its parse. -/
def exampleManifestA : Manifest := { raw := exampleRawA, doc := exampleDocA }

/-- Sections of the per-target test input (src/manifest.rs, `target_deps2`). -/
def exampleDocT : TomlDocument :=
  [ { path := ["package"], header := "[package]", decor := "", body := "\n" },
    { path := ["target", "cfg(unix)", "dev-dependencies"],
      header := "[target.\x27cfg(unix)\x27.dev-dependencies]", decor := "\n",
      body := "\nfoo = \"0.1\"\n" },
    { path := ["target", "cfg(unix)", "dev-dependencies", "bar"],
      header := "[target.\x27cfg(unix)\x27.dev-dependencies.bar]", decor := "\n",
      body := "\n" },
    { path := ["dev-dependencies"], header := "[dev-dependencies]", decor := "\n",
      body := "\nfoo = \"0.1\"\n" },
    { path := ["target", "cfg(unix)", "dependencies"],
      header := "[target.\x27cfg(unix)\x27.dependencies]", decor := "\n",
      body := "\nfoo = \"0.1\"\n" } ]

/-- Section whose body holds "dev-dependencies" only inside array literals
(src/manifest.rs test `not_table_multi_line`). -/
def exampleSectionN : TomlSection :=
  { path := ["package"], header := "[package]", decor := "",
    body := "\nfoo = [\n    [\x27dev-dependencies\x27],\n    [\"dev-dependencies\"]\n]\n" }

/-- The `not_table_multi_line` document. -/
def exampleDocN : TomlDocument := [exampleSectionN]

/-- A dev-dependency table whose body mentions "dev-dependencies" inside an
array literal value. -/
def exampleSectionD : TomlSection :=
  { path := ["dev-dependencies"], header := "[dev-dependencies]", decor := "",
    body := "\nfoo = [\"dev-dependencies\"]\n" }

/-- A document consisting only of `exampleSectionD`. -/
def exampleDocD : TomlDocument := [exampleSectionD]

/-! ### Execution planner model (src/main.rs)

`Context` (context.rs), the metadata `Package` (metadata.rs) and the
per-package feature lists (features.rs) are not in the source snapshot; they
are pure data consumed read-only by src/main.rs, so they are modelled as
record fields holding whatever the collaborators provided. -/

/-- Modelled from the spec: the Feature Enumerator's input groups produced by
features.rs (`cx.pkg_features(id)`): the package's normal declared features,
its optional-dependency-derived features, and its
transitive-dependency-derived features. -/
structure FeatureList where
  normal : List String
  optional_deps : List String
  deps_features : List String
deriving DecidableEq, Repr

/-- Modelled from the spec: `Features::contains` (features.rs) — a name exists
in the package if it is in any of the three declared feature groups. -/
def FeatureList.containsFeature (fl : FeatureList) (f : String) : Bool :=
  fl.normal.contains f || fl.optional_deps.contains f || fl.deps_features.contains f

/-- The metadata package record consumed by src/main.rs (`cx.packages(id)`),
modelled from the spec's Package data model: display name, declared feature
map keys, publish-allowed flag, and the feature lists features.rs derives for
it. -/
structure MetadataPackage where
  name : String
  features : List String
  publish : Bool
  feature_list : FeatureList
deriving DecidableEq, Repr

/-- The configuration fields of `Context` (context.rs, not in the snapshot)
read by src/main.rs, plus the read-only workspace snapshot
(`workspace_members` with `cx.packages` resolved, and the current package's
name if any). -/
structure Context where
  workspace : Bool
  package : List String
  exclude : List String
  subcommand : Option String
  each_feature : Bool
  feature_powerset : Bool
  ignore_private : Bool
  include_features : List String
  exclude_features : List String
  optional_deps : Option (List String)
  include_deps_features : Bool
  group_features : List (List String × String)
  exclude_no_default_features : Bool
  exclude_all_features : Bool
  depth : Option Nat
  members : List MetadataPackage
  current_package : Option String
deriving DecidableEq, Repr

/-- Modelled from the spec: `cx.is_private(id)` (context.rs) — a package is
private when its manifest forbids publishing. -/
def Context.is_private (_cx : Context) (package : MetadataPackage) : Bool :=
  !package.publish

/-- `Progress` from src/main.rs. -/
structure Progress where
  total : Nat
  count : Nat
deriving DecidableEq, Repr

/-- `Kind` from src/main.rs. -/
inductive Kind where
  | NoSubcommand
  | SkipAsPrivate
  | Nomal
  | Each (features : List String)
  | Powerset (features : List (List String))
deriving DecidableEq, Repr

/-- The feature filter closure of `determine_kind` (src/main.rs): drop names
in the exclude list and names that are members of a defined feature group. -/
def featureFilter (cx : Context) (f : String) : Bool :=
  !(cx.exclude_features.contains f)
    && !(cx.group_features.any (fun g => g.1.contains f))

/-- The feature-list computation of `determine_kind` (src/main.rs lines
99-141), returning the enumerated feature names together with the emitted
warnings. -/
def enumerate_features (cx : Context) (package : MetadataPackage) :
    List String × List String :=
  if cx.include_features.isEmpty then
    let feature_list := package.feature_list
    let warnings := cx.exclude_features.filterMap (fun d =>
      if !(feature_list.containsFeature d) then
        some ("specified feature `" ++ d ++ "` not found in package `" ++ package.name ++ "`")
      else none)
    let features := feature_list.normal.filter (featureFilter cx)
    let fw : List String × List String :=
      match cx.optional_deps with
      | none => (features, warnings)
      | some opt_deps =>
        let warnings := warnings ++ opt_deps.filterMap (fun d =>
          if !(feature_list.optional_deps.any (fun f => f == d)) then
            some ("specified optional dependency `" ++ d ++ "` not found in package `"
              ++ package.name ++ "`")
          else none)
        (features ++ feature_list.optional_deps.filter (fun f =>
          featureFilter cx f && (opt_deps.isEmpty || opt_deps.contains f)), warnings)
    let features := fw.1
    let warnings := fw.2
    let features :=
      if cx.include_deps_features then
        features ++ feature_list.deps_features.filter (featureFilter cx)
      else features
    let features :=
      if !cx.group_features.isEmpty then
        features ++ cx.group_features.map (fun g => g.2)
      else features
    (features, warnings)
  else
    (cx.include_features.filter (featureFilter cx), [])

/-- `determine_kind` from src/main.rs: classify one package, update the
precomputed total, and emit warnings. -/
def determine_kind (cx : Context) (package : MetadataPackage) (progress : Progress) :
    Kind × Progress × List String :=
  if cx.ignore_private && cx.is_private package then
    (.SkipAsPrivate, progress, [])
  else if cx.subcommand.isNone then
    (.NoSubcommand, progress, [])
  else if !cx.each_feature && !cx.feature_powerset then
    (.Nomal, { progress with total := progress.total + 1 }, [])
  else
    let fw := enumerate_features cx package
    let features := fw.1
    let warnings := fw.2
    if cx.each_feature then
      if (package.features.isEmpty || !cx.include_features.isEmpty) && features.isEmpty then
        (.Nomal, { progress with total := progress.total + 1 }, warnings)
      else
        (.Each features,
          { progress with total := progress.total + features.length
              + (if !cx.exclude_no_default_features then 1 else 0)
              + (if !cx.exclude_all_features then 1 else 0) }, warnings)
    else
      let features := powerset features cx.depth
      if (package.features.isEmpty || !cx.include_features.isEmpty) && features.isEmpty then
        (.Nomal, { progress with total := progress.total + 1 }, warnings)
      else
        -- -1: the first element of a powerset is `[]`
        (.Powerset features,
          { progress with total := progress.total + (features.length - 1)
              + (if !cx.exclude_no_default_features then 1 else 0)
              + (if !cx.exclude_all_features then 1 else 0) }, warnings)

/-- The `map`/`collect` over workspace members in `determine_package_list`,
threading the progress state and collecting warnings. -/
def determine_kind_list (cx : Context) :
    List MetadataPackage → Progress → List (MetadataPackage × Kind) × Progress × List String
  | [], progress => ([], progress, [])
  | package :: rest, progress =>
    let r := determine_kind cx package progress
    let rs := determine_kind_list cx rest r.2.1
    ((package, r.1) :: rs.1, rs.2.1, r.2.2 ++ rs.2.2)

/-- `determine_package_list` from src/main.rs: select the packages to run on,
classify each, and compute the total; naming an explicit package that matches
no workspace member is a fatal error, an excluded name that matches no member
only warns. -/
def determine_package_list (cx : Context) (progress : Progress) :
    Except String (List (MetadataPackage × Kind) × Progress × List String) :=
  if cx.workspace then
    let warnings := cx.exclude.filterMap (fun spec =>
      if !(cx.members.any (fun p => p.name == spec)) then
        some ("excluded package(s) " ++ spec ++ " not found in workspace")
      else none)
    let selected := cx.members.filter (fun p => !(cx.exclude.contains p.name))
    let r := determine_kind_list cx selected progress
    .ok (r.1, r.2.1, warnings ++ r.2.2)
  else if !cx.package.isEmpty then
    match cx.package.find? (fun spec => !(cx.members.any (fun p => p.name == spec))) with
    | some spec => .error ("package ID specification `" ++ spec ++ "` matched no packages")
    | none =>
      let selected := cx.members.filter (fun p => cx.package.contains p.name)
      let r := determine_kind_list cx selected progress
      .ok (r.1, r.2.1, r.2.2)
  else if cx.current_package.isNone then
    let r := determine_kind_list cx cx.members progress
    .ok (r.1, r.2.1, r.2.2)
  else
    let current := cx.current_package.getD ""
    match cx.members.find? (fun p => p.name == current) with
    | some p =>
      let r := determine_kind_list cx [p] progress
      .ok (r.1, r.2.1, r.2.2)
    | none => .ok ([], progress, [])

/-- One `cargo` invocation produced by `exec_actual`/`exec_cargo`
(src/main.rs), described by its feature arguments. -/
inductive UnitArgs where
  /-- `Kind::Nomal`: run with default features only. -/
  | default
  /-- `--no-default-features` plus the variant's `--features` list. -/
  | noDefault (features : List String)
  /-- the `--all-features` run. -/
  | allFeatures
deriving DecidableEq, Repr

/-- The ordered `cargo` invocations `exec_on_package`/`exec_actual`
(src/main.rs) perform for one package of the given kind: nothing for
`SkipAsPrivate` (early return in `exec_on_package`) and `NoSubcommand`; the
default run for `Nomal`; otherwise the optional no-default-features run, one
run per variant (`Powerset` skips its first variant `[]`), and the optional
all-features run.  Each invocation calls `exec_cargo`, which increments
`progress.count` once. -/
def exec_on_package_units (cx : Context) (kind : Kind) : List UnitArgs :=
  match kind with
  | .NoSubcommand => []
  | .SkipAsPrivate => []
  | .Nomal => [.default]
  | .Each features =>
    (if !cx.exclude_no_default_features then [UnitArgs.noDefault []] else [])
      ++ features.map (fun f => UnitArgs.noDefault [f])
      ++ (if !cx.exclude_all_features then [UnitArgs.allFeatures] else [])
  | .Powerset features =>
    (if !cx.exclude_no_default_features then [UnitArgs.noDefault []] else [])
      ++ (features.drop 1).map (fun f => UnitArgs.noDefault f)
      ++ (if !cx.exclude_all_features then [UnitArgs.allFeatures] else [])

/-- The number of `exec_cargo` calls a whole plan performs when every unit
succeeds. -/
def exec_plan_count (cx : Context) (list : List (MetadataPackage × Kind)) : Nat :=
  (list.map (fun pk => (exec_on_package_units cx pk.2).length)).sum

/-! ### Process driver and fail-fast run model (src/main.rs `main`,
`exec_on_workspace`, and the `try_for_each` chains) -/

/-- Modelled from the spec: `ProcessBuilder::exec` (process.rs, not in the
snapshot) runs the external build tool synchronously and surfaces a failing
child exit status as an error. -/
def execStatus (status : Nat) : Except Nat Unit :=
  if status = 0 then .ok () else .error status

/-- Running the plan's units in order with `?`-propagation (the nested
`try_for_each` chains of src/main.rs): returns how many units were attempted
and the first failing unit's status, if any.  Execution stops at the first
failure. -/
def runUnits : List Nat → Nat × Option Nat
  | [] => (0, none)
  | s :: rest =>
    match execStatus s with
    | .ok _ =>
      let r := runUnits rest
      (r.1 + 1, r.2)
    | .error e => (1, some e)

/-- `main` from src/main.rs: on any error the process prints it and calls
`std::process::exit(1)`; on success it returns normally (exit status 0). -/
def mainExitCode (statuses : List Nat) : Nat :=
  match (runUnits statuses).2 with
  | none => 0
  | some _ => 1

/-! ### Typed manifest view for `Package::from_table` (src/manifest.rs)

`Package::from_table` reads the document through toml_edit's typed accessors
(`get`, `as_table`, `as_str`, value kinds).  This typed view models exactly
those accessors: a table is an ordered association list, a value is a TOML
value. -/

inductive TomlValue where
  | boolean (b : Bool)
  | array (elems : List String)
  | strVal (s : String)
  | intVal (n : Int)
deriving DecidableEq, Repr

inductive TomlItem where
  | value (v : TomlValue)
  | table (entries : List (String × TomlItem))
deriving Repr

/-- `Item::as_table` from toml_edit. -/
def TomlItem.as_table : TomlItem → Option (List (String × TomlItem))
  | .table t => some t
  | _ => none

/-- `Item::as_str` from toml_edit. -/
def TomlItem.as_str : TomlItem → Option String
  | .value (.strVal s) => some s
  | _ => none

/-- `Table::get` from toml_edit: the item stored under a key. -/
def tableGet (t : List (String × TomlItem)) (key : String) : Option TomlItem :=
  (t.find? (fun e => e.1 == key)).map (fun e => e.2)

/-- The `Package` struct of src/manifest.rs. -/
structure ManifestPackage where
  publish : Bool
  rust_version : Option String
deriving DecidableEq, Repr

/-- `Package::from_table` from src/manifest.rs: require a `[package]` table;
publishing is unrestricted if `publish` is `true` or absent and forbidden if
it is `false` or an empty array, any other shape is a parse error; then parse
`rust-version`. -/
def Package.from_table (doc : List (String × TomlItem)) : Except String ManifestPackage :=
  match (tableGet doc "package").bind TomlItem.as_table with
  | none => .error "package"
  | some package =>
    match
      (match tableGet package "publish" with
       | none => Except.ok true
       | some (.value (.boolean b)) => Except.ok b
       | some (.value (.array a)) => Except.ok (!a.isEmpty)
       | some _ => Except.error "publish" : Except String Bool) with
    | .error e => .error e
    | .ok publish =>
      match (tableGet package "rust-version").map TomlItem.as_str with
      | none => .ok { publish := publish, rust_version := none }
      | some (some v) => .ok { publish := publish, rust_version := some v }
      | some none => .error "rust-version"

/-- The spec-side publishing policy: the manifest forbids publishing exactly
when the `publish` field of `[package]` is the boolean `false` or an empty
array. -/
def publishForbidden (doc : List (String × TomlItem)) : Prop :=
  ∃ package, (tableGet doc "package").bind TomlItem.as_table = some package
    ∧ (tableGet package "publish" = some (.value (.boolean false))
       ∨ tableGet package "publish" = some (.value (.array [])))

/-- A `publish` field shape that is neither a boolean nor an array. -/
def badPublishShape : TomlItem → Bool
  | .value (.boolean _) => false
  | .value (.array _) => false
  | _ => true

/-! ### Concrete packages, contexts and documents for concrete evaluations -/

/-- A package declaring no features at all. -/
def pkgNoFeatures : MetadataPackage :=
  { name := "a", features := [], publish := true,
    feature_list := { normal := [], optional_deps := [], deps_features := [] } }

/-- A package declaring the single feature `f1`. -/
def pkgOneFeature : MetadataPackage :=
  { name := "b", features := ["f1"], publish := true,
    feature_list := { normal := ["f1"], optional_deps := [], deps_features := [] } }

/-- A baseline context: a `check` subcommand, no feature matrix options, one
workspace member. -/
def baseContext : Context :=
  { workspace := false, package := [], exclude := [], subcommand := some "check",
    each_feature := false, feature_powerset := false, ignore_private := false,
    include_features := [], exclude_features := [], optional_deps := none,
    include_deps_features := false, group_features := [],
    exclude_no_default_features := false, exclude_all_features := false,
    depth := none, members := [pkgNoFeatures], current_package := none }

/-- Feature-powerset mode over `pkgNoFeatures`. -/
def cxPowersetNoFeatures : Context := { baseContext with feature_powerset := true }

/-- Each-feature mode with a feature group given, over `pkgNoFeatures`. -/
def cxEachGroup : Context :=
  { baseContext with each_feature := true, group_features := [(["m"], "g")] }

/-- Each-feature mode with no groups, over `pkgNoFeatures`. -/
def cxEachNoFeatures : Context := { baseContext with each_feature := true }

/-- Explicit package selection naming a package that is not a member. -/
def cxUnknownPackage : Context := { baseContext with package := ["nonexistent"] }

/-- Workspace mode with the same unknown explicit package name also given. -/
def cxWorkspaceUnknownPackage : Context :=
  { baseContext with workspace := true, package := ["nonexistent"] }

/-- Workspace mode excluding a package name that matches no member. -/
def cxWorkspaceBadExclude : Context :=
  { baseContext with workspace := true, exclude := ["nonexistent"] }

/-- Each-feature mode excluding a feature the package does not have. -/
def cxExcludeUnknownFeature : Context :=
  { baseContext with
      each_feature := true
      exclude_features := ["nosuch"]
      members := [pkgOneFeature] }

/-- A typed manifest whose `[package]` table sets `publish = false`. -/
def docPublishFalse : List (String × TomlItem) :=
  [("package", .table [("publish", .value (.boolean false))])]

/-- A typed manifest whose `[package]` table sets `publish = []`. -/
def docPublishEmptyArray : List (String × TomlItem) :=
  [("package", .table [("publish", .value (.array []))])]

/-- A typed manifest with no `[package]` table. -/
def docNoPackage : List (String × TomlItem) := [("dependencies", .table [])]

/-- A typed manifest whose `publish` field has a shape that is neither a
boolean nor an array. -/
def docPublishBadShape : List (String × TomlItem) :=
  [("package", .table [("publish", .value (.intVal 1))])]

/-- A typed manifest with a bare `[package]` table. -/
def docPlainPackage : List (String × TomlItem) := [("package", .table [])]

/-- A package whose manifest forbids publishing. -/
def pkgPrivate : MetadataPackage := { pkgNoFeatures with publish := false }

/-- The baseline context with the skip-private policy active. -/
def cxIgnorePrivate : Context := { baseContext with ignore_private := true }

/-! ### Lemmas about the power-set enumerator -/

theorem foldl_powersetStep_append {α : Type u} (depth : Option Nat) :
    ∀ (l : List α) (acc : List (List α)),
      ∃ t, List.foldl (powersetStep depth) acc l = acc ++ t := by
  intro l
  induction l with
  | nil => intro acc; exact ⟨[], by simp⟩
  | cons x xs ih =>
    intro acc
    have hstep : ∃ e, powersetStep depth acc x = acc ++ e := by
      cases depth with
      | none => exact ⟨_, rfl⟩
      | some d => exact ⟨_, rfl⟩
    obtain ⟨e, he⟩ := hstep
    obtain ⟨t, ht⟩ := ih (acc ++ e)
    refine ⟨e ++ t, ?_⟩
    rw [List.foldl_cons, he, ht, List.append_assoc]

theorem powerset_head {α : Type u} (l : List α) (depth : Option Nat) :
    (powerset l depth).head? = some [] := by
  obtain ⟨t, ht⟩ := foldl_powersetStep_append depth l [[]]
  unfold powerset
  rw [ht]
  rfl

theorem filter_isEmpty_of_append_form {α : Type u} (x : α) :
    ∀ (m : List (List α)), (∀ c ∈ m, ∃ b, c = b ++ [x]) →
      m.filter List.isEmpty = [] := by
  intro m hm
  rw [List.filter_eq_nil_iff]
  intro c hc
  obtain ⟨b, rfl⟩ := hm c hc
  cases b <;> simp

theorem filter_isEmpty_powersetStep {α : Type u} (depth : Option Nat)
    (acc : List (List α)) (x : α) :
    (powersetStep depth acc x).filter List.isEmpty = acc.filter List.isEmpty := by
  have hmap : (acc.map (fun c => c ++ [x])).filter List.isEmpty = [] := by
    apply filter_isEmpty_of_append_form x
    intro c hc
    obtain ⟨b, _, rfl⟩ := List.mem_map.mp hc
    exact ⟨b, rfl⟩
  have hmapf : ∀ (q : List α → Bool),
      (((acc.map (fun c => c ++ [x])).filter q).filter List.isEmpty : List (List α)) = [] := by
    intro q
    apply filter_isEmpty_of_append_form x
    intro c hc
    obtain ⟨b, _, rfl⟩ := List.mem_map.mp (List.mem_filter.mp hc).1
    exact ⟨b, rfl⟩
  cases depth with
  | none =>
    show (acc ++ acc.map (fun c => c ++ [x])).filter List.isEmpty = acc.filter List.isEmpty
    rw [List.filter_append, hmap, List.append_nil]
  | some d =>
    show (acc ++ (acc.map (fun c => c ++ [x])).filter (fun f => f.length ≤ d)).filter List.isEmpty
        = acc.filter List.isEmpty
    rw [List.filter_append, hmapf, List.append_nil]

theorem foldl_powersetStep_filter_isEmpty {α : Type u} (depth : Option Nat) :
    ∀ (l : List α) (acc : List (List α)),
      (List.foldl (powersetStep depth) acc l).filter List.isEmpty
        = acc.filter List.isEmpty := by
  intro l
  induction l with
  | nil => intro acc; rfl
  | cons x xs ih =>
    intro acc
    rw [List.foldl_cons, ih, filter_isEmpty_powersetStep]

theorem powerset_filter_isEmpty {α : Type u} (l : List α) (depth : Option Nat) :
    (powerset l depth).filter List.isEmpty = [[]] := by
  unfold powerset
  rw [foldl_powersetStep_filter_isEmpty]
  rfl

theorem filter_map_filter_length {α : Type u} (d : Nat) (x : α) :
    ∀ (a : List (List α)),
      ((a.filter (fun c => c.length ≤ d)).map (fun c => c ++ [x])).filter
          (fun c => c.length ≤ d)
        = (a.map (fun c => c ++ [x])).filter (fun c => c.length ≤ d) := by
  intro a
  induction a with
  | nil => rfl
  | cons c t ih =>
    by_cases hc : c.length ≤ d
    · have hcd : decide (c.length ≤ d) = true := decide_eq_true hc
      simp only [List.filter_cons, List.map_cons, hcd, if_true]
      by_cases hcx : (c ++ [x]).length ≤ d
      · have hcxd : decide ((c ++ [x]).length ≤ d) = true := decide_eq_true hcx
        simp only [List.map_cons, List.filter_cons, hcxd, if_true, ih]
      · have hcxd : decide ((c ++ [x]).length ≤ d) = false := decide_eq_false hcx
        simp only [List.map_cons, List.filter_cons, hcxd, Bool.false_eq_true, if_false, ih]
    · have hcd : decide (c.length ≤ d) = false := decide_eq_false hc
      have hcx : ¬ (c ++ [x]).length ≤ d := by
        simp only [List.length_append, List.length_cons, List.length_nil]
        omega
      have hcxd : decide ((c ++ [x]).length ≤ d) = false := decide_eq_false hcx
      simp only [List.filter_cons, List.map_cons, hcd, hcxd, Bool.false_eq_true, if_false, ih]

theorem foldl_powersetStep_some_eq_filter {α : Type u} (d : Nat) :
    ∀ (l : List α) (acc : List (List α)),
      List.foldl (powersetStep (some d)) (acc.filter (fun c => c.length ≤ d)) l
        = (List.foldl (powersetStep none) acc l).filter (fun c => c.length ≤ d) := by
  intro l
  induction l with
  | nil => intro acc; rfl
  | cons x xs ih =>
    intro acc
    have key : powersetStep (some d) (acc.filter (fun c => c.length ≤ d)) x
        = (powersetStep none acc x).filter (fun c => c.length ≤ d) := by
      show acc.filter (fun c => c.length ≤ d)
            ++ ((acc.filter (fun c => c.length ≤ d)).map (fun c => c ++ [x])).filter
                (fun c => c.length ≤ d)
          = (acc ++ acc.map (fun c => c ++ [x])).filter (fun c => c.length ≤ d)
      rw [List.filter_append, filter_map_filter_length]
    rw [List.foldl_cons, List.foldl_cons, key, ih]

theorem powerset_some_eq_filter {α : Type u} (l : List α) (d : Nat) :
    powerset l (some d) = (powerset l none).filter (fun c => c.length ≤ d) := by
  have h0 : ([[]] : List (List α)).filter (fun c => c.length ≤ d) = [[]] := by simp
  unfold powerset
  calc List.foldl (powersetStep (some d)) [[]] l
      = List.foldl (powersetStep (some d))
          (([[]] : List (List α)).filter (fun c => c.length ≤ d)) l := by rw [h0]
    _ = (List.foldl (powersetStep none) [[]] l).filter (fun c => c.length ≤ d) :=
        foldl_powersetStep_some_eq_filter d l [[]]

/-! ### Claim theorems for the power-set enumerator -/

/-- Claim C2: `powerset([], None)` is exactly `[[]]`, and
`powerset([1,2,3,4], None)` is exactly the 16-entry sequence of §4.1 in that
order. -/
theorem powerset_nil_and_1234 :
    (∀ α : Type u, powerset ([] : List α) none = [[]])
    ∧ powerset [1, 2, 3, 4] none
      = [[], [1], [2], [1, 2], [3], [1, 3], [2, 3], [1, 2, 3],
         [4], [1, 4], [2, 4], [1, 2, 4], [3, 4], [1, 3, 4], [2, 3, 4], [1, 2, 3, 4]] := by
  exact ⟨fun α => rfl, by decide⟩

/-- Claim C3: with any depth bound `d`, every combination has length at most
`d`; the empty combination is present exactly once (it is the only empty
entry) and comes first; and the bounded result is exactly the subsequence of
the unbounded result consisting of the combinations of size at most `d`
(relative order preserved); concretely, `powerset([1,2,3,4], Some(2))` is the
11-entry sequence of §8. -/
theorem powerset_depth_bound {α : Type u} (l : List α) (d : Nat) :
    (∀ c ∈ powerset l (some d), c.length ≤ d)
    ∧ (powerset l (some d)).head? = some []
    ∧ (powerset l (some d)).filter List.isEmpty = [[]]
    ∧ powerset l (some d) = (powerset l none).filter (fun c => c.length ≤ d)
    ∧ powerset [1, 2, 3, 4] (some 2)
      = [[], [1], [2], [1, 2], [3], [1, 3], [2, 3], [4], [1, 4], [2, 4], [3, 4]] := by
  refine ⟨?_, powerset_head l (some d), powerset_filter_isEmpty l (some d),
    powerset_some_eq_filter l d, by decide⟩
  intro c hc
  rw [powerset_some_eq_filter] at hc
  exact of_decide_eq_true (List.mem_filter.mp hc).2

/-- Witness for C3 at a concrete input: `[1,2] ∈ powerset([1,2,3], Some(2))`
has length at most 2. -/
theorem powerset_depth_bound_witness : ([1, 2] : List Nat).length ≤ 2 :=
  (powerset_depth_bound [1, 2, 3] 2).1 [1, 2] (by decide)

/-! ### Lemmas and claim theorems for the manifest edit -/

theorem removeDevDeps_eq_filter (doc : TomlDocument) :
    removeDevDeps doc = doc.filter specKeepsSection := by
  simp only [removeDevDeps]
  rw [List.filter_filter]
  rfl

theorem removeDevDeps_sublist (doc : TomlDocument) :
    (removeDevDeps doc).Sublist doc := by
  rw [removeDevDeps_eq_filter]
  exact List.filter_sublist doc

/-- Claim C7: the edit removes exactly the top-level dev-dependencies table
(with its sub-tables) and, for table-like entries under `target`, their
dev-dependencies sub-tables, and nothing else — the output is literally the
input's section sequence filtered by that predicate, so all other structure,
ordering, decor and bodies are preserved byte-for-byte; concretely the first
manifest test input edits to the shown output, and the per-target test keeps
the sibling `[target.'cfg(unix)'.dependencies]` table untouched. -/
theorem remove_dev_deps_exact :
    (∀ doc : TomlDocument, removeDevDeps doc = doc.filter specKeepsSection)
    ∧ (∀ doc : TomlDocument, (removeDevDeps doc).Sublist doc)
    ∧ TomlDocument.render exampleDocA = exampleRawA
    ∧ TomlDocument.render (removeDevDeps exampleDocA)
      = "[package]\n[dependencies]\n[[example]]\n"
    ∧ TomlDocument.render exampleDocT
      = "[package]\n\n[target.\x27cfg(unix)\x27.dev-dependencies]\nfoo = \"0.1\"\n\n[target.\x27cfg(unix)\x27.dev-dependencies.bar]\n\n[dev-dependencies]\nfoo = \"0.1\"\n\n[target.\x27cfg(unix)\x27.dependencies]\nfoo = \"0.1\"\n"
    ∧ TomlDocument.render (removeDevDeps exampleDocT)
      = "[package]\n\n[target.\x27cfg(unix)\x27.dependencies]\nfoo = \"0.1\"\n" := by
  exact ⟨removeDevDeps_eq_filter, removeDevDeps_sublist, rfl, rfl, rfl, rfl⟩

/-- Counterexample to C8 as stated: in the document consisting of a
`[dev-dependencies]` table whose body holds the string "dev-dependencies"
inside an array literal value, that occurrence is not a table key, yet the
edit deletes it together with the removed table (the edited document renders
to the empty string), so it is not left byte-for-byte unchanged. -/
theorem non_table_occurrence_removed :
    occursIn "dev-dependencies" exampleSectionD.body = true
    ∧ exampleSectionD ∈ exampleDocD
    ∧ exampleSectionD ∉ removeDevDeps exampleDocD
    ∧ TomlDocument.render (removeDevDeps exampleDocD) = "" := by
  refine ⟨?_, ?_, ?_, ?_⟩ <;> decide

/-- Claim C8 amended: an occurrence of "dev-dependencies" that is not a table
key is left byte-for-byte unchanged whenever it does not lie inside a removed
dev-dependencies table: any section the edit's predicate keeps survives
identically (same decor, header and body bytes, so every occurrence inside
its body is untouched), and the output is a subsequence of the input. -/
theorem non_table_occurrence_kept (doc : TomlDocument) (s : TomlSection)
    (hmem : s ∈ doc) (hkeep : specKeepsSection s = true)
    (_hocc : occursIn "dev-dependencies" s.body = true) :
    s ∈ removeDevDeps doc ∧ (removeDevDeps doc).Sublist doc := by
  refine ⟨?_, removeDevDeps_sublist doc⟩
  rw [removeDevDeps_eq_filter]
  exact List.mem_filter.mpr ⟨hmem, hkeep⟩

/-- Witness for the amended C8: the `not_table_multi_line` test document,
whose `[package]` body holds "dev-dependencies" only inside array literals,
keeps that section unchanged. -/
theorem non_table_occurrence_kept_witness :
    exampleSectionN ∈ removeDevDeps exampleDocN
    ∧ (removeDevDeps exampleDocN).Sublist exampleDocN :=
  non_table_occurrence_kept exampleDocN exampleSectionN
    (by decide) (by decide) (by decide)

/-- Claim C1: for every manifest, the edit/restore pipeline restores exactly
the stored raw bytes — `remove_dev_deps` works on a clone of the parsed
document and never touches `raw`, so the restored file equals the pre-edit
bytes; on the first manifest test input the edited bytes differ from the
original while the restored bytes are identical to it. -/
theorem manifest_edit_restore_roundtrip :
    (∀ m : Manifest, (manifestGuardRun m).restored = m.raw)
    ∧ (manifestGuardRun exampleManifestA).edited ≠ exampleManifestA.raw
    ∧ (manifestGuardRun exampleManifestA).restored = exampleManifestA.raw := by
  refine ⟨fun m => rfl, ?_, rfl⟩
  decide

/-! ### Lemmas and claim theorems for the execution planner -/

theorem exec_units_each_length (cx : Context) (features : List String) :
    (exec_on_package_units cx (.Each features)).length
      = features.length + (if !cx.exclude_no_default_features then 1 else 0)
        + (if !cx.exclude_all_features then 1 else 0) := by
  simp only [exec_on_package_units, List.length_append, List.length_map]
  cases cx.exclude_no_default_features <;> cases cx.exclude_all_features <;> simp <;> omega

theorem exec_units_powerset_length (cx : Context) (features : List (List String)) :
    (exec_on_package_units cx (.Powerset features)).length
      = (features.length - 1) + (if !cx.exclude_no_default_features then 1 else 0)
        + (if !cx.exclude_all_features then 1 else 0) := by
  simp only [exec_on_package_units, List.length_append, List.length_map, List.length_drop]
  cases cx.exclude_no_default_features <;> cases cx.exclude_all_features <;> simp <;> omega

theorem determine_kind_total (cx : Context) (package : MetadataPackage) (p : Progress) :
    ((determine_kind cx package p).2.1).total
      = p.total + (exec_on_package_units cx (determine_kind cx package p).1).length := by
  simp only [determine_kind]
  by_cases h1 : (cx.ignore_private && cx.is_private package) = true
  · rw [if_pos h1]; simp [exec_on_package_units]
  · rw [if_neg h1]
    by_cases h2 : cx.subcommand.isNone = true
    · rw [if_pos h2]; simp [exec_on_package_units]
    · rw [if_neg h2]
      by_cases h3 : (!cx.each_feature && !cx.feature_powerset) = true
      · rw [if_pos h3]; simp [exec_on_package_units]
      · rw [if_neg h3]
        by_cases h4 : cx.each_feature = true
        · rw [if_pos h4]
          by_cases h5 : ((package.features.isEmpty || !cx.include_features.isEmpty)
              && (enumerate_features cx package).1.isEmpty) = true
          · rw [if_pos h5]; simp [exec_on_package_units]
          · rw [if_neg h5]
            simp only [exec_units_each_length]
            omega
        · rw [if_neg h4]
          by_cases h6 : ((package.features.isEmpty || !cx.include_features.isEmpty)
              && (powerset (enumerate_features cx package).1 cx.depth).isEmpty) = true
          · rw [if_pos h6]; simp [exec_on_package_units]
          · rw [if_neg h6]
            simp only [exec_units_powerset_length]
            omega

theorem determine_kind_list_total (cx : Context) :
    ∀ (ps : List MetadataPackage) (p : Progress),
      ((determine_kind_list cx ps p).2.1).total
        = p.total + exec_plan_count cx (determine_kind_list cx ps p).1 := by
  intro ps
  induction ps with
  | nil => intro p; simp [determine_kind_list, exec_plan_count]
  | cons pkg rest ih =>
    intro p
    show ((determine_kind_list cx rest (determine_kind cx pkg p).2.1).2.1).total = _
    rw [ih ((determine_kind cx pkg p).2.1), determine_kind_total cx pkg p]
    simp only [determine_kind_list, exec_plan_count, List.map_cons, List.sum_cons]
    omega

theorem runUnits_replicate_zero : ∀ n : Nat, runUnits (List.replicate n 0) = (n, none) := by
  intro n
  induction n with
  | zero => rfl
  | succ k ih => simp [List.replicate_succ, runUnits, execStatus, ih]

theorem determine_package_list_total (cx : Context) (p0 : Progress) :
    ∀ r, determine_package_list cx p0 = .ok r →
      r.2.1.total = p0.total + exec_plan_count cx r.1 := by
  intro r h
  unfold determine_package_list at h
  by_cases hw : cx.workspace = true
  · rw [if_pos hw] at h
    cases Except.ok.inj h
    exact determine_kind_list_total cx _ p0
  · rw [if_neg hw] at h
    by_cases hp : (!cx.package.isEmpty) = true
    · rw [if_pos hp] at h
      cases hf : cx.package.find? (fun spec => !(cx.members.any (fun p => p.name == spec))) with
      | some spec => rw [hf] at h; exact Except.noConfusion h
      | none =>
        rw [hf] at h
        cases Except.ok.inj h
        exact determine_kind_list_total cx _ p0
    · rw [if_neg hp] at h
      by_cases hc : cx.current_package.isNone = true
      · rw [if_pos hc] at h
        cases Except.ok.inj h
        exact determine_kind_list_total cx _ p0
      · rw [if_neg hc] at h
        simp only [] at h
        cases hf : cx.members.find? (fun p => p.name == cx.current_package.getD "") with
        | some pkg =>
          rw [hf] at h
          cases Except.ok.inj h
          exact determine_kind_list_total cx _ p0
        | none =>
          rw [hf] at h
          cases Except.ok.inj h
          simp [exec_plan_count]

/-- Claim C5: the total is computed by `determine_package_list` (over all
selected packages, by the same classification rules that generate the units)
before anything executes, and it equals the number of `exec_cargo` calls —
each of which increments `progress.count` — that the plan performs when no
unit fails, so the final count of attempted units equals the precomputed
total. -/
theorem planner_total_matches_attempts (cx : Context) (p0 : Progress)
    (list : List (MetadataPackage × Kind)) (p1 : Progress) (w : List String)
    (h : determine_package_list cx p0 = .ok (list, p1, w)) :
    p1.total = p0.total + exec_plan_count cx list
    ∧ runUnits (List.replicate (exec_plan_count cx list) 0)
        = (exec_plan_count cx list, none) :=
  ⟨determine_package_list_total cx p0 (list, p1, w) h, runUnits_replicate_zero _⟩

/-- Witness for C5 on the baseline context: its plan is one `Nomal` unit for
the sole member, the precomputed total is 1, and the all-success run attempts
exactly that unit. -/
theorem planner_total_matches_attempts_witness :
    (⟨1, 0⟩ : Progress).total
      = (⟨0, 0⟩ : Progress).total + exec_plan_count baseContext [(pkgNoFeatures, .Nomal)]
    ∧ runUnits (List.replicate (exec_plan_count baseContext [(pkgNoFeatures, .Nomal)]) 0)
      = (exec_plan_count baseContext [(pkgNoFeatures, .Nomal)], none) :=
  planner_total_matches_attempts baseContext ⟨0, 0⟩ [(pkgNoFeatures, .Nomal)] ⟨1, 0⟩ [] rfl

theorem enumerate_features_nil (cx : Context) (package : MetadataPackage)
    (hinc : cx.include_features = []) (hgrp : cx.group_features = [])
    (hfl : package.feature_list = { normal := [], optional_deps := [], deps_features := [] }) :
    (enumerate_features cx package).1 = [] := by
  unfold enumerate_features
  rw [hinc, hfl]
  cases co : cx.optional_deps <;>
    cases hd : cx.include_deps_features <;>
      simp [hgrp]

/-- Counterexample to C4 as stated: a package declaring no features at all,
with no explicit include list, is not classified `Nomal` in feature-powerset
mode (the emptiness test runs on the powerset output, which always contains
`[]`, so the degradation branch is unreachable and the package yields
`Powerset [[]]` adding 2 to the total), nor in each-feature mode when a
feature group is given (the group's synthetic name makes the list non-empty,
yielding `Each ["g"]` adding 3). -/
theorem featureless_not_degraded :
    pkgNoFeatures.features = []
    ∧ cxPowersetNoFeatures.include_features = []
    ∧ (determine_kind cxPowersetNoFeatures pkgNoFeatures ⟨0, 0⟩).1 = .Powerset [[]]
    ∧ ((determine_kind cxPowersetNoFeatures pkgNoFeatures ⟨0, 0⟩).2.1).total = 2
    ∧ (determine_kind cxPowersetNoFeatures pkgNoFeatures ⟨0, 0⟩).1 ≠ .Nomal
    ∧ (determine_kind cxEachGroup pkgNoFeatures ⟨0, 0⟩).1 = .Each ["g"]
    ∧ ((determine_kind cxEachGroup pkgNoFeatures ⟨0, 0⟩).2.1).total = 3
    ∧ (determine_kind cxEachGroup pkgNoFeatures ⟨0, 0⟩).1 ≠ .Nomal := by
  decide

/-- Claim C4 amended: a package declaring no features (and none of the
derived feature lists), with no explicit include list and no feature groups
given, degrades to `Nomal` in each-feature mode, contributing exactly one
execution unit and adding exactly 1 to the total; in feature-powerset mode
the degradation branch is unreachable and the same package is classified
`Powerset [[]]`, adding one unit for the no-default-features run and one for
the all-features run (unless excluded by policy). -/
theorem featureless_each_degrades (cx : Context) (package : MetadataPackage) (p : Progress)
    (hpriv : (cx.ignore_private && cx.is_private package) = false)
    (hsub : cx.subcommand.isNone = false)
    (hinc : cx.include_features = [])
    (hgrp : cx.group_features = [])
    (hpf : package.features = [])
    (hfl : package.feature_list = { normal := [], optional_deps := [], deps_features := [] }) :
    (cx.each_feature = true →
      (determine_kind cx package p).1 = .Nomal
      ∧ ((determine_kind cx package p).2.1).total = p.total + 1
      ∧ (exec_on_package_units cx (determine_kind cx package p).1).length = 1)
    ∧ (cx.each_feature = false → cx.feature_powerset = true →
      (determine_kind cx package p).1 = .Powerset [[]]
      ∧ ((determine_kind cx package p).2.1).total
        = p.total + (if !cx.exclude_no_default_features then 1 else 0)
          + (if !cx.exclude_all_features then 1 else 0)) := by
  have hfeat := enumerate_features_nil cx package hinc hgrp hfl
  constructor
  · intro he
    have h3 : (!cx.each_feature && !cx.feature_powerset) = false := by rw [he]; rfl
    have h1 : ¬ (cx.ignore_private && cx.is_private package) = true := by simp [hpriv]
    have h2 : ¬ cx.subcommand.isNone = true := by simp [hsub]
    have h3' : ¬ (!cx.each_feature && !cx.feature_powerset) = true := by simp [h3]
    have h5 : ((package.features.isEmpty || !cx.include_features.isEmpty)
        && (enumerate_features cx package).1.isEmpty) = true := by
      rw [hfeat, hpf]; rfl
    simp only [determine_kind]
    rw [if_neg h1, if_neg h2, if_neg h3', if_pos he, if_pos h5]
    exact ⟨rfl, rfl, rfl⟩
  · intro he hfp
    have h1 : ¬ (cx.ignore_private && cx.is_private package) = true := by simp [hpriv]
    have h2 : ¬ cx.subcommand.isNone = true := by simp [hsub]
    have h3' : ¬ (!cx.each_feature && !cx.feature_powerset) = true := by
      rw [he, hfp]; simp
    have he' : ¬ cx.each_feature = true := by simp [he]
    have h6 : ¬ ((package.features.isEmpty || !cx.include_features.isEmpty)
        && (powerset (enumerate_features cx package).1 cx.depth).isEmpty) = true := by
      rw [hfeat]
      cases cx.depth <;> simp [powerset, powersetStep]
    simp only [determine_kind]
    rw [if_neg h1, if_neg h2, if_neg h3', if_neg he', if_neg h6, hfeat]
    refine ⟨rfl, ?_⟩
    show p.total + ((powerset [] cx.depth).length - 1) + _ + _ = _
    cases cx.depth <;> simp [powerset]

/-- Witness for the amended C4: the each-feature context with no groups over
the featureless package degrades to `Nomal`, adds 1 to the total, and yields
one unit. -/
theorem featureless_each_degrades_witness :
    (determine_kind cxEachNoFeatures pkgNoFeatures ⟨0, 0⟩).1 = .Nomal
    ∧ ((determine_kind cxEachNoFeatures pkgNoFeatures ⟨0, 0⟩).2.1).total
      = (⟨0, 0⟩ : Progress).total + 1
    ∧ (exec_on_package_units cxEachNoFeatures
        (determine_kind cxEachNoFeatures pkgNoFeatures ⟨0, 0⟩).1).length = 1 :=
  (featureless_each_degrades cxEachNoFeatures pkgNoFeatures ⟨0, 0⟩
    rfl rfl rfl rfl rfl rfl).1 rfl

/-- Counterexample to C9 as stated: when `--workspace` is also given, an
explicit package name matching no workspace member is silently ignored — the
plan is built successfully with no fatal error. -/
theorem workspace_ignores_unknown_package :
    "nonexistent" ∈ cxWorkspaceUnknownPackage.package
    ∧ cxWorkspaceUnknownPackage.members.all (fun m => !(m.name == "nonexistent")) = true
    ∧ determine_package_list cxWorkspaceUnknownPackage ⟨0, 0⟩
      = .ok ([(pkgNoFeatures, .Nomal)], ⟨1, 0⟩, []) := by
  refine ⟨by decide, by decide, rfl⟩

/-- Claim C9 amended: when explicit package names are given and workspace
mode is not active, naming a package that matches no workspace member is a
fatal error raised while building the plan, before any unit runs (under
`--workspace` the explicit names are ignored); an excluded package name
matching no member only produces a warning while the plan is still built, and
an excluded feature not present in the package produces a warning and is
dropped by the feature filter while classification proceeds. -/
theorem package_resolution_errors :
    (∀ (cx : Context) (p0 : Progress) (spec : String),
      cx.workspace = false → cx.package ≠ [] → spec ∈ cx.package →
      (∀ m ∈ cx.members, m.name ≠ spec) →
      ∃ msg, determine_package_list cx p0 = .error msg)
    ∧ (∀ (cx : Context) (p0 : Progress) (spec : String),
      cx.workspace = true → spec ∈ cx.exclude →
      (∀ m ∈ cx.members, m.name ≠ spec) →
      ∃ list p1 w, determine_package_list cx p0 = .ok (list, p1, w)
        ∧ ("excluded package(s) " ++ spec ++ " not found in workspace") ∈ w)
    ∧ (∀ (cx : Context) (package : MetadataPackage) (p : Progress) (d : String),
      d ∈ cx.exclude_features →
      package.feature_list.containsFeature d = false →
      (cx.ignore_private && cx.is_private package) = false →
      cx.subcommand.isNone = false →
      (!cx.each_feature && !cx.feature_powerset) = false →
      cx.include_features = [] →
      ("specified feature `" ++ d ++ "` not found in package `" ++ package.name ++ "`")
          ∈ (determine_kind cx package p).2.2
        ∧ featureFilter cx d = false) := by
  refine ⟨?_, ?_, ?_⟩
  · intro cx p0 spec hw hp hspec hnone
    have hpred : (fun s => !(cx.members.any (fun p => p.name == s))) spec = true := by
      simp only [Bool.not_eq_true']
      rw [List.any_eq_false]
      intro m hm
      simp [hnone m hm]
    have hfind : cx.package.find? (fun s => !(cx.members.any (fun p => p.name == s))) ≠ none := by
      intro hcontra
      exact absurd hpred (by simpa using List.find?_eq_none.mp hcontra spec hspec)
    obtain ⟨spec2, hf⟩ := Option.ne_none_iff_exists'.mp hfind
    refine ⟨"package ID specification `" ++ spec2 ++ "` matched no packages", ?_⟩
    unfold determine_package_list
    rw [if_neg (by simp [hw]), if_pos (by simp [hp]), hf]
  · intro cx p0 spec hw hspec hnone
    unfold determine_package_list
    rw [if_pos hw]
    refine ⟨_, _, _, rfl, List.mem_append_left _ ?_⟩
    refine List.mem_filterMap.mpr ⟨spec, hspec, ?_⟩
    have hany : cx.members.any (fun p => p.name == spec) = false := by
      rw [List.any_eq_false]
      intro m hm
      simp [hnone m hm]
    rw [hany]
    rfl
  · intro cx package p d hd hcf hpriv hsub hmode hinc
    constructor
    · have hmsg : ("specified feature `" ++ d ++ "` not found in package `"
          ++ package.name ++ "`") ∈ (enumerate_features cx package).2 := by
        unfold enumerate_features
        rw [hinc]
        have hbase : ("specified feature `" ++ d ++ "` not found in package `"
            ++ package.name ++ "`") ∈ cx.exclude_features.filterMap (fun e =>
              if !(package.feature_list.containsFeature e) then
                some ("specified feature `" ++ e ++ "` not found in package `"
                  ++ package.name ++ "`")
              else none) := by
          refine List.mem_filterMap.mpr ⟨d, hd, ?_⟩
          rw [hcf]
          rfl
        cases co : cx.optional_deps <;>
          cases hg : cx.group_features.isEmpty <;>
            cases hdf : cx.include_deps_features <;>
              simp only [co, hg, hdf, List.isEmpty_nil, if_true, if_false, Bool.not_true,
                Bool.not_false, Bool.false_eq_true] <;>
                first
                  | exact hbase
                  | exact List.mem_append_left _ hbase
      have h1 : ¬ (cx.ignore_private && cx.is_private package) = true := by simp [hpriv]
      have h2 : ¬ cx.subcommand.isNone = true := by simp [hsub]
      have h3 : ¬ (!cx.each_feature && !cx.feature_powerset) = true := by simp [hmode]
      simp only [determine_kind]
      rw [if_neg h1, if_neg h2, if_neg h3]
      by_cases h4 : cx.each_feature = true
      · rw [if_pos h4]
        by_cases h5 : ((package.features.isEmpty || !cx.include_features.isEmpty)
            && (enumerate_features cx package).1.isEmpty) = true
        · rw [if_pos h5]; exact hmsg
        · rw [if_neg h5]; exact hmsg
      · rw [if_neg h4]
        by_cases h6 : ((package.features.isEmpty || !cx.include_features.isEmpty)
            && (powerset (enumerate_features cx package).1 cx.depth).isEmpty) = true
        · rw [if_pos h6]; exact hmsg
        · rw [if_neg h6]; exact hmsg
    · unfold featureFilter
      have hc : cx.exclude_features.contains d = true := List.elem_eq_true_of_mem hd
      rw [hc]
      rfl

/-- Witness for the amended C9 at concrete inputs: an unknown `-p` name
without `--workspace` is fatal; an unknown excluded package under
`--workspace` yields a built plan plus the warning; an unknown excluded
feature yields the warning from classification and is dropped by the
filter. -/
theorem package_resolution_errors_witness :
    (∃ msg, determine_package_list cxUnknownPackage ⟨0, 0⟩ = .error msg)
    ∧ (∃ list p1 w, determine_package_list cxWorkspaceBadExclude ⟨0, 0⟩ = .ok (list, p1, w)
        ∧ ("excluded package(s) " ++ "nonexistent" ++ " not found in workspace") ∈ w)
    ∧ (("specified feature `" ++ "nosuch" ++ "` not found in package `"
        ++ pkgOneFeature.name ++ "`")
          ∈ (determine_kind cxExcludeUnknownFeature pkgOneFeature ⟨0, 0⟩).2.2
      ∧ featureFilter cxExcludeUnknownFeature "nosuch" = false) :=
  ⟨package_resolution_errors.1 cxUnknownPackage ⟨0, 0⟩ "nonexistent"
      rfl (by decide) (by decide) (by decide),
    package_resolution_errors.2.1 cxWorkspaceBadExclude ⟨0, 0⟩ "nonexistent"
      rfl (by decide) (by decide),
    package_resolution_errors.2.2 cxExcludeUnknownFeature pkgOneFeature ⟨0, 0⟩ "nosuch"
      (by decide) (by decide) rfl rfl rfl rfl⟩

/-! ### Claim theorems for the process driver and fail-fast sequencing -/

/-- Counterexample to C6 as stated: for a single unit failing with exit
status 101, the first failing unit's status is 101 but the process's own exit
status is 1 (`main` calls `std::process::exit(1)` on any error), so the
process exit status does not mirror the failing unit's exit status. -/
theorem exit_code_not_child_status :
    (runUnits [101]).1 = 1
    ∧ (runUnits [101]).2 = some 101
    ∧ mainExitCode [101] = 1
    ∧ mainExitCode [101] ≠ 101 := by
  exact ⟨rfl, rfl, rfl, by decide⟩

/-- Claim C6 amended: if unit `k` is the first whose invocation fails, then
exactly units `1..k` are attempted — units `k+1..N` are never executed — and
the run's reported failure is unit `k`'s failure; the process then exits with
status 1 (indicating failure), which equals the failing unit's own exit
status only when that status is 1. -/
theorem fail_fast (sts : List Nat) (k : Nat) (hk : k < sts.length)
    (hfail : sts.get ⟨k, hk⟩ ≠ 0)
    (hpre : ∀ j (hj : j < k), sts.get ⟨j, Nat.lt_trans hj hk⟩ = 0) :
    (runUnits sts).1 = k + 1
    ∧ (runUnits sts).2 = some (sts.get ⟨k, hk⟩)
    ∧ mainExitCode sts = 1 := by
  induction sts generalizing k with
  | nil => exact absurd hk (by simp)
  | cons s rest ih =>
    cases k with
    | zero =>
      have hs : s ≠ 0 := hfail
      have he : execStatus s = .error s := if_neg hs
      refine ⟨?_, ?_, ?_⟩ <;> simp [runUnits, he, mainExitCode]
    | succ k' =>
      have hs : s = 0 := hpre 0 (Nat.succ_pos k')
      have he : execStatus s = .ok () := by rw [hs]; rfl
      have hk' : k' < rest.length := Nat.lt_of_succ_lt_succ hk
      have hfail' : rest.get ⟨k', hk'⟩ ≠ 0 := hfail
      have hpre' : ∀ j (hj : j < k'), rest.get ⟨j, Nat.lt_trans hj hk'⟩ = 0 := by
        intro j hj
        exact hpre (j + 1) (Nat.succ_lt_succ hj)
      obtain ⟨ih1, ih2, _⟩ := ih k' hk' hfail' hpre'
      refine ⟨?_, ?_, ?_⟩
      · simp [runUnits, he, ih1]
      · simp [runUnits, he]
        exact ih2
      · simp [mainExitCode, runUnits, he, ih2]

/-- Witness for the amended C6: with unit statuses `[0, 2, 5]`, unit 2 (the
first failure, status 2) is the last attempted, the reported failure carries
status 2, and the process exits with status 1. -/
theorem fail_fast_witness :
    (runUnits [0, 2, 5]).1 = 2
    ∧ (runUnits [0, 2, 5]).2 = some 2
    ∧ mainExitCode [0, 2, 5] = 1 :=
  fail_fast [0, 2, 5] 1 (by decide) (by decide)
    (by
      intro j hj
      have hj0 : j = 0 := by omega
      subst hj0
      rfl)

/-! ### Claim theorem for the publish field parsing -/

/-- Claim C10: a missing or non-table `[package]` is a fatal parse error; a
`publish` field that is neither a boolean nor an array is a fatal parse
error; a successfully parsed manifest forbids publishing exactly when the
field is the boolean `false` or an empty array — absent means `true` and an
array means non-emptiness; and with the skip-private policy active a package
whose manifest forbids publishing is classified `SkipAsPrivate`. -/
theorem publish_field_policy (doc : List (String × TomlItem)) :
    ((tableGet doc "package").bind TomlItem.as_table = none →
      Package.from_table doc = .error "package")
    ∧ (∀ package item, (tableGet doc "package").bind TomlItem.as_table = some package →
        tableGet package "publish" = some item → badPublishShape item = true →
        Package.from_table doc = .error "publish")
    ∧ (∀ pkg, Package.from_table doc = .ok pkg → (pkg.publish = false ↔ publishForbidden doc))
    ∧ (∀ (cx : Context) (mp : ManifestPackage) (package : MetadataPackage) (p : Progress),
        Package.from_table doc = .ok mp → mp.publish = false →
        cx.ignore_private = true → package.publish = mp.publish →
        (determine_kind cx package p).1 = .SkipAsPrivate) := by
  refine ⟨?_, ?_, ?_, ?_⟩
  · intro h
    simp only [Package.from_table, h]
  · intro package item ht hp hbad
    simp only [Package.from_table, ht, hp]
    cases item with
    | table t => rfl
    | value v =>
      cases v with
      | boolean b => exact absurd hbad (by simp [badPublishShape])
      | array a => exact absurd hbad (by simp [badPublishShape])
      | strVal y => rfl
      | intVal n => rfl
  · intro pkg h
    cases ht : (tableGet doc "package").bind TomlItem.as_table with
    | none => rw [Package.from_table, ht] at h; exact Except.noConfusion h
    | some package =>
      rw [Package.from_table, ht] at h
      simp only [] at h
      have hforb : publishForbidden doc ↔
          (tableGet package "publish" = some (.value (.boolean false))
            ∨ tableGet package "publish" = some (.value (.array []))) := by
        unfold publishForbidden
        constructor
        · rintro ⟨pk, hpk, hor⟩
          rw [ht] at hpk
          cases Option.some.inj hpk
          exact hor
        · intro hor
          exact ⟨package, ht, hor⟩
      rw [hforb]
      cases hp : tableGet package "publish" with
      | none =>
        rw [hp] at h
        cases hrv : (tableGet package "rust-version").map TomlItem.as_str with
        | none =>
          rw [hrv] at h
          cases Except.ok.inj h
          simp [hp]
        | some o =>
          cases o with
          | none => rw [hrv] at h; exact Except.noConfusion h
          | some v =>
            rw [hrv] at h
            cases Except.ok.inj h
            simp [hp]
      | some item =>
        cases item with
        | table t => rw [hp] at h; exact Except.noConfusion h
        | value v =>
          cases v with
          | boolean b =>
            rw [hp] at h
            cases hrv : (tableGet package "rust-version").map TomlItem.as_str with
            | none =>
              rw [hrv] at h
              cases Except.ok.inj h
              simp [hp]
            | some o =>
              cases o with
              | none => rw [hrv] at h; exact Except.noConfusion h
              | some v2 =>
                rw [hrv] at h
                cases Except.ok.inj h
                simp [hp]
          | array a =>
            rw [hp] at h
            cases hrv : (tableGet package "rust-version").map TomlItem.as_str with
            | none =>
              rw [hrv] at h
              cases Except.ok.inj h
              simp [hp]
            | some o =>
              cases o with
              | none => rw [hrv] at h; exact Except.noConfusion h
              | some v2 =>
                rw [hrv] at h
                cases Except.ok.inj h
                simp [hp]
          | strVal y => rw [hp] at h; exact Except.noConfusion h
          | intVal n => rw [hp] at h; exact Except.noConfusion h
  · intro cx mp package p hok hpub hip hmp
    have hpriv : (cx.ignore_private && cx.is_private package) = true := by
      rw [hip, Context.is_private, hmp, hpub]
      rfl
    simp only [determine_kind]
    rw [if_pos hpriv]

/-- Witness for C10 at concrete manifests: a missing `[package]` table and an
integer `publish` field are fatal parse errors; `publish = false` parses to a
publish-forbidding package; and the skip-private policy classifies the
private package `SkipAsPrivate`. -/
theorem publish_field_policy_witness :
    Package.from_table docNoPackage = .error "package"
    ∧ Package.from_table docPublishBadShape = .error "publish"
    ∧ ((⟨false, none⟩ : ManifestPackage).publish = false ↔ publishForbidden docPublishFalse)
    ∧ (determine_kind cxIgnorePrivate pkgPrivate ⟨0, 0⟩).1 = .SkipAsPrivate :=
  ⟨(publish_field_policy docNoPackage).1 rfl,
    (publish_field_policy docPublishBadShape).2.1
      [("publish", .value (.intVal 1))] (.value (.intVal 1)) rfl rfl rfl,
    (publish_field_policy docPublishFalse).2.2.1 ⟨false, none⟩ rfl,
    (publish_field_policy docPublishFalse).2.2.2 cxIgnorePrivate ⟨false, none⟩
      pkgPrivate ⟨0, 0⟩ rfl rfl rfl rfl⟩
